import Mathlib

/-!
Verification of the dynamic Muskingum routing and rating-curve engine
(`src/lib/hydro/index.ts`).

The TypeScript source is shallowly embedded over the real numbers: JS
`number` arithmetic becomes exact real arithmetic, a missing or non-finite
optional field (`undefined` / non-finite `number`) becomes `Option ℝ` with
`none`, and `x ?? d` becomes `Option.getD`.  `Math.pow` on positive bases
is `Real.rpow`, `Math.log` is `Real.log`, `Math.exp` is `Real.exp`.
Large functions are split into named stages so that each stage can be
reasoned about separately; the stages compose exactly as the source does.
-/

noncomputable section

namespace Hydro

/-- Source helper `clamp(x, lo, hi) = Math.max(lo, Math.min(hi, x))` from the source helpers. -/
def clamp (x lo hi : ℝ) : ℝ := max lo (min hi x)

/-- Record `MuskingumParams`: storage constant `K` (seconds), weight `X`,
routing coefficients `C0, C1, C2`. -/
structure MuskingumParams where
  K : ℝ
  X : ℝ
  C0 : ℝ
  C1 : ℝ
  C2 : ℝ

/-- Source `muskingumCoeffs(Ksec, X, dtSec)`: floors `K` at `1e-6`, clamps `X` to
`[0, 0.5]`, raises `K` to `1.01 · dt / (2(1−X) + 1e-12)` if below it, and
derives the three coefficients. -/
def muskingumCoeffs (Ksec X dtSec : ℝ) : MuskingumParams :=
  let K := max Ksec 1e-6
  let Xc := clamp X 0 0.5
  let minK := dtSec / (2 * (1 - Xc) + 1e-12)
  let Kst := max K (minK * 1.01)
  let denom := 2 * Kst * (1 - Xc) + dtSec
  { K := Kst, X := Xc,
    C0 := (dtSec - 2 * Kst * Xc) / denom,
    C1 := (dtSec + 2 * Kst * Xc) / denom,
    C2 := (2 * Kst * (1 - Xc) - dtSec) / denom }

/-- Source `muskingumStep(It, Itm1, Otm1, params)`: one routing step, floored at 0. -/
def muskingumStep (It Itm1 Otm1 : ℝ) (params : MuskingumParams) : ℝ :=
  max 0 (params.C0 * It + params.C1 * Itm1 + params.C2 * Otm1)

/-- Loop body of `muskingumRouteSeries`: carries `prevI`, `prevO` through the
inflow list. -/
def muskingumRouteGo (params : MuskingumParams) : List ℝ → ℝ → ℝ → List ℝ
  | [], _, _ => []
  | It :: rest, prevI, prevO =>
    let Ot := muskingumStep It prevI prevO params
    Ot :: muskingumRouteGo params rest It Ot

/-- Source `muskingumRouteSeries(inflow, O0, params)`: routes the whole window.
`prevI` starts as `inflow[0]` (for an empty inflow the JS loop body never
runs, so the initial `prevI` is irrelevant and the result is `[]`). -/
def muskingumRouteSeries (inflow : List ℝ) (O0 : ℝ) (params : MuskingumParams) : List ℝ :=
  match inflow with
  | [] => []
  | i0 :: _ => muskingumRouteGo params inflow i0 O0

/-- Source `qFromH(h, rc)` is rc.a * Math.pow(Math.max(h - rc.h0, 0), rc.b)`. -/
structure RatingCurveParams where
  a : ℝ
  b : ℝ
  h0 : ℝ

def qFromH (h : ℝ) (rc : RatingCurveParams) : ℝ :=
  rc.a * (max (h - rc.h0) 0) ^ rc.b

/-- Source `hFromQ(q, rc)`: `rc.h0` for `q ≤ 0`, else `rc.h0 + (q/rc.a)^(1/rc.b)`. -/
def hFromQ (q : ℝ) (rc : RatingCurveParams) : ℝ :=
  if q ≤ 0 then rc.h0 else rc.h0 + (q / rc.a) ^ (1 / rc.b)

/-- Source `capInflowChange(prev, cand, maxPct)`: pass-through for `prev ≤ 0`,
else clamp `cand` to `[prev(1−maxPct), prev(1+maxPct)]`. -/
def capInflowChange (prev cand maxPct : ℝ) : ℝ :=
  if prev ≤ 0 then cand
  else min (prev * (1 + maxPct)) (max (prev * (1 - maxPct)) cand)

/-- Source `scaleKByFlow(Kbase, q, refQ, gamma)`: power-law rescaling of K,
clamped to `[60 s, 7 days]`. -/
def scaleKByFlow (Kbase q refQ gamma : ℝ) : ℝ :=
  let ratio := max 1e-6 (q / max 1e-6 refQ)
  let Keff := Kbase * ratio ^ gamma
  max 60 (min (7 * 24 * 3600) Keff)


-- ===== estimateMuskingumParams (two-stage grid search) =====

/-- SSE accumulation body: indices with a missing observation (or reads past
the end of the observation list, which JS yields `undefined` for) add 0. -/
def sseAdd (obs : List (Option ℝ)) (Ohat : List ℝ) (s : ℝ) (t : ℕ) : ℝ :=
  match obs.getD t none with
  | some o => s + (Ohat.getD t 0 - o) * (Ohat.getD t 0 - o)
  | none => s

/-- SSE of the routed series against the observed outflow, summed over
`t < Ohat.length` exactly as the source loop does. -/
def sseFor (inflow : List ℝ) (O0 : ℝ) (obs : List (Option ℝ))
    (params : MuskingumParams) : ℝ :=
  let Ohat := muskingumRouteSeries inflow O0 params
  (List.range Ohat.length).foldl (sseAdd obs Ohat) 0

/-- A grid cell: its SSE and the (stability-corrected) parameters. -/
structure Cand where
  sse : ℝ
  params : MuskingumParams

/-- Source update `if (!best || sse < best.sse) best = { sse, params }`. -/
def bestStep (best : Option Cand) (c : Cand) : Option Cand :=
  match best with
  | none => some c
  | some b => if c.sse < b.sse then some c else some b

/-- One grid cell: `Kh = Klo + (Khi−Klo)·i/(KN−1)` (hours, converted to
seconds), `X = Xlo + (Xhi−Xlo)·j/(XN−1)`.  The fine stage is the same
formula with `KN = XN = 9` (divisor 8). -/
def gridCand (inflow : List ℝ) (O0 : ℝ) (obs : List (Option ℝ)) (dt : ℝ)
    (Klo Khi Xlo Xhi : ℝ) (KN XN : ℕ) (i j : ℕ) : Cand :=
  let Kh := Klo + (Khi - Klo) * ((i : ℝ) / ((KN : ℝ) - 1))
  let X := Xlo + (Xhi - Xlo) * ((j : ℝ) / ((XN : ℝ) - 1))
  let params := muskingumCoeffs (Kh * 3600) X dt
  ⟨sseFor inflow O0 obs params, params⟩

/-- Row-major enumeration of the grid (outer loop over `K`, inner over `X`),
matching the source iteration order. -/
def gridCands (inflow : List ℝ) (O0 : ℝ) (obs : List (Option ℝ)) (dt : ℝ)
    (Klo Khi Xlo Xhi : ℝ) (KN XN : ℕ) : List Cand :=
  (List.range KN).flatMap (fun i =>
    (List.range XN).map (fun j => gridCand inflow O0 obs dt Klo Khi Xlo Xhi KN XN i j))

/-- Search-range options of `estimateMuskingumParams`; absent fields take
the source defaults.  The JS grid counts are floored to integers before the
`max 5` guard, so they are modelled as `ℕ`. -/
structure SearchConfig where
  KminH : Option ℝ
  KmaxH : Option ℝ
  Xmin : Option ℝ
  Xmax : Option ℝ
  KGrid : Option ℕ
  XGrid : Option ℕ

def emptySearch : SearchConfig := ⟨none, none, none, none, none, none⟩

/-- Source `estimateMuskingumParams(inflow, outflowObs, dtSeconds, search)`: coarse
15×11 grid search over `(K, X)` followed by a 9×9 fine search around the
coarse optimum.  `O0` is the first available observation, else `inflow[0]`
(`inflow[0]` of an empty list is undefined in JS; modelled `headD 0` — no
theorem below concerns that case).  The coarse grid is nonempty
(`KGrid, XGrid ≥ 5`), so the folds are never `none`; the `getD` defaults
mirror the source's non-null assertions and are dead code. -/
def estimateMuskingumParams (inflow : List ℝ) (outflowObs : List (Option ℝ))
    (dtSeconds : ℝ) (search : SearchConfig) : MuskingumParams :=
  let KminH := search.KminH.getD 0.25
  let KmaxH := search.KmaxH.getD 24
  let Xmin := search.Xmin.getD 0
  let Xmax := search.Xmax.getD 0.5
  let KGrid := max 5 (search.KGrid.getD 15)
  let XGrid := max 5 (search.XGrid.getD 11)
  let O0 := (outflowObs.findSome? id).getD (inflow.headD 0)
  let best1 := (gridCands inflow O0 outflowObs dtSeconds
    KminH KmaxH Xmin Xmax KGrid XGrid).foldl bestStep none
  let coarse := (best1.getD ⟨0, muskingumCoeffs 0 0 dtSeconds⟩).params
  let fineKmin := max (coarse.K / 3600 - 0.5) KminH
  let fineKmax := min (coarse.K / 3600 + 0.5) KmaxH
  let fineXmin := max (coarse.X - 0.05) Xmin
  let fineXmax := min (coarse.X + 0.05) Xmax
  let best2 := (gridCands inflow O0 outflowObs dtSeconds
    fineKmin fineKmax fineXmin fineXmax 9 9).foldl bestStep best1
  (best2.getD ⟨0, muskingumCoeffs 0 0 dtSeconds⟩).params


-- ===== fitRatingCurve (dynamic rating curve) =====

/-- An `(h, q)` pair as consumed by `fitRatingCurve`; `none` models a
missing or non-finite JS number (rejected by `isFiniteNumber`, and falsy in
comparisons such as `p.q! > 0`). -/
structure RCPair where
  h : Option ℝ
  q : Option ℝ

/-- JS `x > y` with a possibly-undefined left operand: `undefined > y` is
false. -/
def jsGtOpt (x : Option ℝ) (y : ℝ) : Bool :=
  match x with
  | some v => decide (y < v)
  | none => false

/-- JS `Math.min(...)` over a nonempty spread, as a left fold; the empty case
(JS `Infinity`) is modelled as 0 and is unreachable in the claims below. -/
def jsMinD : List ℝ → ℝ
  | [] => 0
  | x :: xs => xs.foldl min x

/-- Finite stage values, ascending (`.sort((a, b) => a - b)`). -/
def rcHs (pairs : List RCPair) : List ℝ :=
  (pairs.filterMap (·.h)).insertionSort (· ≤ ·)

/-- Finite discharge values. -/
def rcQs (pairs : List RCPair) : List ℝ :=
  pairs.filterMap (·.q)

/-- The 10th/40th percentile bounds of the `h0` search range.  On sorted stages
`Math.floor(0.1·(len−1))` and `Math.floor(0.4·(len−1))` are the exact
integer divisions `(len−1)/10` and `2(len−1)/5`. -/
def rcH0Min (pairs : List RCPair) : ℝ :=
  let Hs := rcHs pairs
  let p10 := Hs.getD ((Hs.length - 1) / 10) 0
  let p40 := Hs.getD (2 * (Hs.length - 1) / 5) 0
  min p10 (p40 - 0.05)

def rcH0Max (pairs : List RCPair) : ℝ :=
  let Hs := rcHs pairs
  let p10 := Hs.getD ((Hs.length - 1) / 10) 0
  let p40 := Hs.getD (2 * (Hs.length - 1) / 5) 0
  max p40 (p10 + 0.05)

/-- Candidate `h0` number `i` of the 41-point grid. -/
def rcH0At (pairs : List RCPair) (i : ℕ) : ℝ :=
  rcH0Min pairs + (rcH0Max pairs - rcH0Min pairs) * ((i : ℝ) / 40)

/-- Regression rows for candidate `i`: pairs with `q > 0` and `h > h0`,
mapped to `(ln(max(h−h0, 1e-9)), ln q)`. -/
def rcRowsAt (pairs : List RCPair) (i : ℕ) : List (ℝ × ℝ) :=
  (pairs.filter (fun p => jsGtOpt p.q 0 && jsGtOpt p.h (rcH0At pairs i))).map
    (fun p => (Real.log (max (p.h.getD 0 - rcH0At pairs i) 1e-9),
      Real.log (p.q.getD 0)))

/-- OLS denominator `n·ΣX² − (ΣX)²` for candidate `i`. -/
def rcDenomAt (pairs : List RCPair) (i : ℕ) : ℝ :=
  let rows := rcRowsAt pairs i
  (rows.length : ℝ) * (rows.map (fun r => r.1 * r.1)).sum -
    (rows.map Prod.fst).sum * (rows.map Prod.fst).sum

structure RCBest where
  h0 : ℝ
  a : ℝ
  b : ℝ
  sse : ℝ

/-- SSE of a candidate curve over all pairs, in original discharge units:
`qhat = h > h0 ? a·max(h−h0,0)^b : 0` and `e = (q ?? 0) − qhat`. -/
def rcSSEAt (pairs : List RCPair) (h0 a b : ℝ) : ℝ :=
  (pairs.map (fun p =>
    let qhat := if jsGtOpt p.h h0 then a * (max (p.h.getD 0 - h0) 0) ^ b else 0
    let e := p.q.getD 0 - qhat
    e * e)).sum

/-- Loop body for candidate `i`: skip when fewer than 3 rows or when the
regression denominator is below `1e-12` in magnitude; otherwise fit and keep
the strictly better SSE (first-encountered minimum wins). -/
def rcCandStep (pairs : List RCPair) (best : Option RCBest) (i : ℕ) : Option RCBest :=
  if (rcRowsAt pairs i).length < 3 then best
  else if |rcDenomAt pairs i| < 1e-12 then best
  else
    let rows := rcRowsAt pairs i
    let n : ℝ := rows.length
    let sumX := (rows.map Prod.fst).sum
    let sumY := (rows.map Prod.snd).sum
    let sumXY := (rows.map (fun r => r.1 * r.2)).sum
    let b := (n * sumXY - sumX * sumY) / rcDenomAt pairs i
    let c := (sumY - b * sumX) / n
    let a := Real.exp c
    let sse := rcSSEAt pairs (rcH0At pairs i) a b
    match best with
    | none => some ⟨rcH0At pairs i, a, b, sse⟩
    | some bb => if sse < bb.sse then some ⟨rcH0At pairs i, a, b, sse⟩ else some bb

/-- Source `fitRatingCurve(pairs)`: early fallback `{a:1, b:1, h0 = min stage}` when
fewer than 3 finite stages or discharges; otherwise the 41-candidate grid
search, falling back to `{a:1, b:1, h0 = Hs[0]}` when no candidate was
admissible. -/
def fitRatingCurve (pairs : List RCPair) : RatingCurveParams :=
  let Hs := rcHs pairs
  if Hs.length < 3 ∨ (rcQs pairs).length < 3 then
    ⟨1, 1, jsMinD Hs⟩
  else
    match (List.range 41).foldl (rcCandStep pairs) none with
    | none => ⟨1, 1, Hs.headD 0⟩
    | some bb => ⟨bb.a, bb.b, bb.h0⟩


-- ===== dynamicRouteAndForecastN (orchestrator) =====

/-- A timestamped sample: `t` is the epoch timestamp in milliseconds (the
ISO-string formatting of forecast timestamps is presentation and not
modelled), `h`/`q` the optional stage/discharge. -/
structure Sample where
  t : ℝ
  h : Option ℝ
  q : Option ℝ

structure WindowData where
  upstream : List Sample
  downstream : List Sample
  dtSeconds : ℝ

inductive InflowMethod
  | persistence
  | linear
  | ar1
  | exp

/-- Source `forecastInflowNext(history, method, expAlpha)`.  `history[m-2] ?? It`
is `It` when `m < 2` (JS reads `history[-1] = undefined` then).  For an
empty history JS produces NaN; no claim below exercises that case. -/
def forecastInflowNext (history : List ℝ) (method : InflowMethod)
    (expAlpha : ℝ) : ℝ :=
  let m := history.length
  let It := history.getD (m - 1) 0
  let Itm1 := if 2 ≤ m then history.getD (m - 2) 0 else It
  match method with
  | .linear => max 0 (It + (It - Itm1))
  | .ar1 =>
    if m < 2 then It
    else
      let ps := history.zip (history.drop 1)
      let num := (ps.map (fun r => r.2 * r.1)).sum
      let den := (ps.map (fun r => r.1 * r.1)).sum
      let phi := if den = 0 then 0 else num / den
      max 0 (phi * It)
  | .exp =>
    max 0 ((history.drop 1).foldl
      (fun s x => expAlpha * x + (1 - expAlpha) * s) (history.headD 0))
  | .persistence => max 0 It

/-- Rising-limb filter: keep index 0 and any pair whose `q` did not decrease
relative to its predecessor in the original list (`dQ[i] ≥ 0`). -/
def risingGo : RCPair → List RCPair → List RCPair
  | _, [] => []
  | prev, p :: rest =>
    if prev.q.getD 0 ≤ p.q.getD 0 then p :: risingGo p rest else risingGo p rest

def risingKeep : List RCPair → List RCPair
  | [] => []
  | p :: rest => p :: risingGo p rest

structure KScaleOpts where
  refQ : Option ℝ
  gamma : Option ℝ

/-- Record `ForecastOptions`; absent optional fields take the source's
destructuring defaults inside `dynamicRouteAndForecastN`. -/
structure ForecastOptions where
  nSteps : ℕ
  inflowMethod : Option InflowMethod
  expAlpha : Option ℝ
  maxInflowChangePct : Option ℝ
  KScale : Option KScaleOpts
  stageRelaxation : Option ℝ
  risingOnlyRC : Option Bool

structure ForecastStep where
  step : ℕ
  q_m3s : ℝ
  h_m : ℝ
  t : ℝ

structure DynamicRoutingMultiResult where
  muskingum : MuskingumParams
  rating : RatingCurveParams
  routedQ : List ℝ
  forecasts : List ForecastStep

/-- JS `arr.slice(-n)`: the last `n` elements; JS `slice(-0)` is `slice(0)`,
i.e. the whole array. -/
def jsSliceLast (l : List Sample) (n : ℕ) : List Sample :=
  if n = 0 then l else l.drop (l.length - n)

/-- The `for (step = 1; step <= nSteps; ...)` forecast loop, by recursion on
the number of remaining steps.  `histI.at(-2)` after the push is
`histI2[histI2.length − 2]`. -/
def forecastLoop (dt : ℝ) (mk : MuskingumParams) (rc : RatingCurveParams)
    (method : InflowMethod) (alpha maxPct refQ gamma lam lastT : ℝ) :
    ℕ → ℕ → List ℝ → ℝ → ℝ → List ForecastStep
  | 0, _, _, _, _ => []
  | rem + 1, step, histI, prevO, prevH =>
    let candI := forecastInflowNext histI method alpha
    let It := capInflowChange (histI.getLastD 0) candI maxPct
    let histI2 := histI ++ [It]
    let Kstep := scaleKByFlow mk.K It refQ gamma
    let stepParams := muskingumCoeffs Kstep mk.X dt
    let Itm1 := histI2.getD (histI2.length - 2) 0
    let Ot := muskingumStep It Itm1 prevO stepParams
    let Hrc := hFromQ Ot rc
    let Ht := prevH + lam * (Hrc - prevH)
    ⟨step, Ot, Ht, lastT + (step : ℝ) * dt * 1000⟩ ::
      forecastLoop dt mk rc method alpha maxPct refQ gamma lam lastT
        rem (step + 1) histI2 Ot Ht

def windowN (input : WindowData) : ℕ :=
  min input.upstream.length input.downstream.length

def windowI (input : WindowData) : List ℝ :=
  (jsSliceLast input.upstream (windowN input)).map (fun s => s.q.getD 0)

def windowOobs (input : WindowData) : List (Option ℝ) :=
  (jsSliceLast input.downstream (windowN input)).map (fun s => s.q)

def windowMk (input : WindowData) : MuskingumParams :=
  estimateMuskingumParams (windowI input) (windowOobs input)
    input.dtSeconds emptySearch

/-- Anchor `O0`: the first available observation, else `I[0]` (JS `undefined` for
an empty window; modelled `headD 0`, unreachable in the claims below). -/
def windowO0 (input : WindowData) : ℝ :=
  ((windowOobs input).findSome? id).getD ((windowI input).headD 0)

def windowRouted (input : WindowData) : List ℝ :=
  muskingumRouteSeries (windowI input) (windowO0 input) (windowMk input)

def windowRecentPairs (input : WindowData) : List RCPair :=
  ((jsSliceLast input.downstream (windowN input)).filter
    (fun s => s.h.isSome && s.q.isSome)).map (fun s => ⟨s.h, s.q⟩)

def windowPairs (input : WindowData) (risingOnlyRC : Bool) : List RCPair :=
  let recentPairs := windowRecentPairs input
  if risingOnlyRC ∧ 5 ≤ recentPairs.length then
    let kept := risingKeep recentPairs
    if kept.length < 3 then recentPairs else kept
  else recentPairs

/-- Rating-curve stage: fit when ≥ 3 pairs survive, else the fixed fallback
`{a:1, b:1.2, h0 = last downstream stage ?? 0}` (note: the source reads the
last element of the full, unsliced downstream array here). -/
def windowRC (input : WindowData) (risingOnlyRC : Bool) : RatingCurveParams :=
  let pairs := windowPairs input risingOnlyRC
  if 3 ≤ pairs.length then fitRatingCurve pairs
  else ⟨1, 1.2, ((input.downstream.getLast?).bind (·.h)).getD 0⟩

/-- Source `dynamicRouteAndForecastN(input, opts)`.  `Date.now()` — used for the
forecast-origin timestamp only when the downstream window is empty — is
modelled as 0; timestamps play no role in any claim. -/
def dynamicRouteAndForecastN (input : WindowData) (opts : ForecastOptions) :
    DynamicRoutingMultiResult :=
  let method := opts.inflowMethod.getD .exp
  let alpha := opts.expAlpha.getD 0.35
  let maxPct := opts.maxInflowChangePct.getD 0.12
  let KScale := opts.KScale.getD ⟨some 300, some 0.3⟩
  let lam := opts.stageRelaxation.getD 0.35
  let risingOnlyRC := opts.risingOnlyRC.getD true
  let mk := windowMk input
  let rc := windowRC input risingOnlyRC
  let Orouted := windowRouted input
  let prevO := Orouted.getLastD 0
  let prevH := ((input.downstream.getLast?).bind (·.h)).getD (hFromQ prevO rc)
  let lastT := ((input.downstream.getLast?).map (·.t)).getD 0
  let forecasts := forecastLoop input.dtSeconds mk rc method alpha maxPct
    (KScale.refQ.getD 300) (KScale.gamma.getD 0.3) lam lastT opts.nSteps 1
    (windowI input) prevO prevH
  ⟨mk, rc, Orouted, forecasts⟩


-- ===== helper lemmas about muskingumCoeffs =====

lemma clamp_nonneg (X : ℝ) : 0 ≤ clamp X 0 0.5 := le_max_left _ _

lemma clamp_le_half (X : ℝ) : clamp X 0 0.5 ≤ 0.5 :=
  max_le (by norm_num) (min_le_left _ _)

lemma coeffs_K_pos (Ksec X dtSec : ℝ) : 0 < (muskingumCoeffs Ksec X dtSec).K := by
  have h1 : (0 : ℝ) < 1e-6 := by norm_num
  calc (0:ℝ) < 1e-6 := h1
    _ ≤ max Ksec 1e-6 := le_max_right _ _
    _ ≤ (muskingumCoeffs Ksec X dtSec).K := le_max_left _ _

lemma coeffs_denom_pos (Ksec X dtSec : ℝ) (hdt : 0 < dtSec) :
    0 < 2 * (muskingumCoeffs Ksec X dtSec).K * (1 - clamp X 0 0.5) + dtSec := by
  have hK := coeffs_K_pos Ksec X dtSec
  have hXc := clamp_le_half X
  nlinarith

/-- The three coefficients always sum to 1 when `dt > 0` (shared helper). -/
lemma coeffs_sum_eq_one (Ksec X dtSec : ℝ) (hdt : 0 < dtSec) :
    (muskingumCoeffs Ksec X dtSec).C0 + (muskingumCoeffs Ksec X dtSec).C1 +
      (muskingumCoeffs Ksec X dtSec).C2 = 1 := by
  have hden := coeffs_denom_pos Ksec X dtSec hdt
  simp only [muskingumCoeffs] at hden ⊢
  rw [div_add_div_same, div_add_div_same, div_eq_one_iff_eq (ne_of_gt hden)]
  ring

/-- The stability-corrected `K` always strictly exceeds the critical value
`dt / (2(1−Xc))` when `dt > 0` (shared helper). -/
lemma coeffs_K_gt_critical (Ksec X dtSec : ℝ) (hdt : 0 < dtSec) :
    dtSec / (2 * (1 - clamp X 0 0.5)) < (muskingumCoeffs Ksec X dtSec).K := by
  set Xc := clamp X 0 0.5 with hXcdef
  have hXc : Xc ≤ 0.5 := clamp_le_half X
  have hu : (1:ℝ) ≤ 2 * (1 - Xc) := by nlinarith
  have hu0 : (0:ℝ) < 2 * (1 - Xc) := by linarith
  have hu0' : (0:ℝ) < 2 * (1 - Xc) + 1e-12 := by linarith
  have hkey : dtSec / (2 * (1 - Xc)) < dtSec / (2 * (1 - Xc) + 1e-12) * 1.01 := by
    have hrw : dtSec / (2 * (1 - Xc) + 1e-12) * 1.01
        = (dtSec * 1.01) / (2 * (1 - Xc) + 1e-12) := by ring
    rw [hrw, div_lt_div_iff hu0 hu0']
    nlinarith [mul_nonneg hdt.le (by linarith : (0:ℝ) ≤ 2 * (1 - Xc) - 1)]
  have hle : dtSec / (2 * (1 - Xc) + 1e-12) * 1.01 ≤ (muskingumCoeffs Ksec X dtSec).K := by
    simp only [muskingumCoeffs, hXcdef]
    exact le_max_right _ _
  linarith

-- ===== field equations for muskingumCoeffs =====

lemma coeffs_K_eq (Ksec X dtSec : ℝ) :
    (muskingumCoeffs Ksec X dtSec).K =
      max (max Ksec 1e-6) (dtSec / (2 * (1 - clamp X 0 0.5) + 1e-12) * 1.01) := rfl

lemma coeffs_C1_eq (Ksec X dtSec : ℝ) :
    (muskingumCoeffs Ksec X dtSec).C1 =
      (dtSec + 2 * (muskingumCoeffs Ksec X dtSec).K * clamp X 0 0.5) /
        (2 * (muskingumCoeffs Ksec X dtSec).K * (1 - clamp X 0 0.5) + dtSec) := rfl

lemma coeffs_C2_eq (Ksec X dtSec : ℝ) :
    (muskingumCoeffs Ksec X dtSec).C2 =
      (2 * (muskingumCoeffs Ksec X dtSec).K * (1 - clamp X 0 0.5) - dtSec) /
        (2 * (muskingumCoeffs Ksec X dtSec).K * (1 - clamp X 0 0.5) + dtSec) := rfl

-- ===== C1 =====

/-- C1 (amended): `muskingumCoeffs` leaves the supplied `K` unchanged exactly
when `K ≥ 1e-6` and `K ≥ 1.01·Δt/(2(1−X′)+1e-12)` — a threshold slightly
above the critical value, so a `K` that satisfies `Δt ≤ 2K(1−X′)` but lies
within about 1% of critical is still raised; and for every supplied `K`
violating `Δt ≤ 2K(1−X′)` (with `Δt > 0`) the returned `K` strictly exceeds
the critical value `Δt/(2(1−X′))`. -/
theorem muskingumCoeffs_K_amended (Ksec X dtSec : ℝ) :
    (1e-6 ≤ Ksec → dtSec / (2 * (1 - clamp X 0 0.5) + 1e-12) * 1.01 ≤ Ksec →
      (muskingumCoeffs Ksec X dtSec).K = Ksec) ∧
    (0 < dtSec → 2 * Ksec * (1 - clamp X 0 0.5) < dtSec →
      dtSec / (2 * (1 - clamp X 0 0.5)) < (muskingumCoeffs Ksec X dtSec).K) := by
  constructor
  · intro h1 h2
    rw [coeffs_K_eq, max_eq_left h1, max_eq_left h2]
  · intro hdt _
    exact coeffs_K_gt_critical Ksec X dtSec hdt

/-- Witness for C1 (amended) at concrete inputs: `K = 7200` stays unchanged,
and `K = 100` (which violates the bound at `Δt = 3600`) is raised above the
critical value. -/
theorem muskingumCoeffs_K_amended_witness :
    ((1e-6 : ℝ) ≤ 7200 ∧ (3600:ℝ) / (2 * (1 - clamp 0 0 0.5) + 1e-12) * 1.01 ≤ 7200 ∧
      (muskingumCoeffs 7200 0 3600).K = 7200) ∧
    ((0:ℝ) < 3600 ∧ 2 * 100 * (1 - clamp (0:ℝ) 0 0.5) < 3600 ∧
      (3600:ℝ) / (2 * (1 - clamp 0 0 0.5)) < (muskingumCoeffs 100 0 3600).K) := by
  have hc : clamp (0:ℝ) 0 0.5 = 0 := by
    rw [clamp, min_eq_right (by norm_num : (0:ℝ) ≤ 0.5), max_self]
  refine ⟨⟨by norm_num, ?_, ?_⟩, ⟨by norm_num, ?_, ?_⟩⟩
  · rw [hc]; norm_num
  · exact (muskingumCoeffs_K_amended 7200 0 3600).1 (by norm_num) (by rw [hc]; norm_num)
  · rw [hc]; norm_num
  · exact (muskingumCoeffs_K_amended 100 0 3600).2 (by norm_num) (by rw [hc]; norm_num)

/-- Counterexample to C1 as stated: at `K = 1800`, `X = 0`, `Δt = 3600` the
stability bound `Δt ≤ 2K(1−X′)` holds with equality and `K ≥ 1e-6`, yet the
returned `K` is `1.01·3600/(2+1e-12) ≈ 1818 ≠ 1800`. -/
theorem muskingumCoeffs_K_claim_cex :
    (0:ℝ) < 3600 ∧ (1e-6 : ℝ) ≤ 1800 ∧
      (3600:ℝ) ≤ 2 * 1800 * (1 - clamp 0 0 0.5) ∧
      (muskingumCoeffs 1800 0 3600).K ≠ 1800 := by
  have hc : clamp (0:ℝ) 0 0.5 = 0 := by
    rw [clamp, min_eq_right (by norm_num : (0:ℝ) ≤ 0.5), max_self]
  refine ⟨by norm_num, by norm_num, by rw [hc]; norm_num, ?_⟩
  rw [coeffs_K_eq, hc]
  have h1 : max (1800 : ℝ) 1e-6 = 1800 := max_eq_left (by norm_num)
  have h2 : (1800:ℝ) < 3600 / (2 * (1 - 0) + 1e-12) * 1.01 := by norm_num
  rw [h1, max_eq_right h2.le]
  exact ne_of_gt h2

-- ===== C2 =====

/-- C2: for every `K`, `X` and `Δt > 0`, the returned coefficients satisfy
`C0 + C1 + C2 = 1` exactly (conservation). -/
theorem muskingumCoeffs_conservation (Ksec X dtSec : ℝ) (hdt : 0 < dtSec) :
    (muskingumCoeffs Ksec X dtSec).C0 + (muskingumCoeffs Ksec X dtSec).C1 +
      (muskingumCoeffs Ksec X dtSec).C2 = 1 :=
  coeffs_sum_eq_one Ksec X dtSec hdt

/-- Witness for C2 at `K = 7200`, `X = 0.2`, `Δt = 3600`. -/
theorem muskingumCoeffs_conservation_witness :
    (0:ℝ) < 3600 ∧ (muskingumCoeffs 7200 0.2 3600).C0 +
      (muskingumCoeffs 7200 0.2 3600).C1 + (muskingumCoeffs 7200 0.2 3600).C2 = 1 :=
  ⟨by norm_num, muskingumCoeffs_conservation 7200 0.2 3600 (by norm_num)⟩

-- ===== C10 =====

/-- C10: for every `K`, `X` and `Δt > 0`, the returned coefficients satisfy
`C1 > 0` and `C2 > 0`: the stability correction forces the effective `K`
strictly above `Δt/(2(1−X′))`, so the previous inflow and previous outflow
always receive strictly positive weight. -/
theorem muskingumCoeffs_C1_C2_pos (Ksec X dtSec : ℝ) (hdt : 0 < dtSec) :
    0 < (muskingumCoeffs Ksec X dtSec).C1 ∧ 0 < (muskingumCoeffs Ksec X dtSec).C2 := by
  have hK := coeffs_K_pos Ksec X dtSec
  have hcrit := coeffs_K_gt_critical Ksec X dtSec hdt
  have hX0 := clamp_nonneg X
  have hXh := clamp_le_half X
  have hden := coeffs_denom_pos Ksec X dtSec hdt
  have hu0 : (0:ℝ) < 2 * (1 - clamp X 0 0.5) := by nlinarith
  have hnum2 : 0 < 2 * (muskingumCoeffs Ksec X dtSec).K * (1 - clamp X 0 0.5) - dtSec := by
    have hlt := (div_lt_iff hu0).mp hcrit
    nlinarith
  constructor
  · rw [coeffs_C1_eq]
    exact div_pos (by nlinarith) hden
  · rw [coeffs_C2_eq]
    exact div_pos hnum2 hden

/-- Witness for C10 at `K = 7200`, `X = 0.2`, `Δt = 3600`. -/
theorem muskingumCoeffs_C1_C2_pos_witness :
    (0:ℝ) < 3600 ∧ 0 < (muskingumCoeffs 7200 0.2 3600).C1 ∧
      0 < (muskingumCoeffs 7200 0.2 3600).C2 :=
  ⟨by norm_num, muskingumCoeffs_C1_C2_pos 7200 0.2 3600 (by norm_num)⟩

-- ===== C7 =====

/-- C7: for every rating curve with `a > 0` and `b ≠ 0` and every `q > 0`,
`qFromH (hFromQ q rc) rc = q` — inverse consistency, exact in real
arithmetic. -/
theorem qFromH_hFromQ_roundtrip (rc : RatingCurveParams) (q : ℝ)
    (ha : 0 < rc.a) (hb : rc.b ≠ 0) (hq : 0 < q) :
    qFromH (hFromQ q rc) rc = q := by
  have hqa : 0 < q / rc.a := div_pos hq ha
  have hpow : (0:ℝ) < (q / rc.a) ^ (1 / rc.b) := Real.rpow_pos_of_pos hqa _
  rw [hFromQ, if_neg (not_le.mpr hq), qFromH]
  have hsub : rc.h0 + (q / rc.a) ^ (1 / rc.b) - rc.h0 = (q / rc.a) ^ (1 / rc.b) := by
    ring
  rw [hsub, max_eq_left hpow.le, ← Real.rpow_mul hqa.le, one_div_mul_cancel hb,
    Real.rpow_one]
  field_simp

/-- Witness for C7 at `rc = {a: 2, b: 3, h0: 1}`, `q = 5`. -/
theorem qFromH_hFromQ_roundtrip_witness :
    (0:ℝ) < (RatingCurveParams.mk 2 3 1).a ∧ (RatingCurveParams.mk 2 3 1).b ≠ 0 ∧
      (0:ℝ) < 5 ∧ qFromH (hFromQ 5 (RatingCurveParams.mk 2 3 1))
        (RatingCurveParams.mk 2 3 1) = 5 :=
  ⟨by norm_num, by norm_num, by norm_num,
    qFromH_hFromQ_roundtrip (RatingCurveParams.mk 2 3 1) 5
      (by norm_num) (by norm_num) (by norm_num)⟩

-- ===== C8 =====

lemma muskingumRouteGo_length (params : MuskingumParams) :
    ∀ (l : List ℝ) (prevI prevO : ℝ),
      (muskingumRouteGo params l prevI prevO).length = l.length
  | [], _, _ => rfl
  | _ :: rest, _, _ => by
    simp [muskingumRouteGo, muskingumRouteGo_length params rest]

/-- C8: for every non-empty inflow list, `muskingumRouteSeries` returns a
list of the same length whose first element is
`muskingumStep inflow[0] inflow[0] O_initial coeffs`. -/
theorem muskingumRouteSeries_length_head (i0 : ℝ) (rest : List ℝ) (O0 : ℝ)
    (params : MuskingumParams) :
    (muskingumRouteSeries (i0 :: rest) O0 params).length = (i0 :: rest).length ∧
    (muskingumRouteSeries (i0 :: rest) O0 params).head? =
      some (muskingumStep i0 i0 O0 params) :=
  ⟨muskingumRouteGo_length params (i0 :: rest) i0 O0, rfl⟩

-- ===== C9 =====

/-- C9: for every previous inflow `P > 0`, candidate `c` and `maxPct ≥ 0`,
the capped value lies in `[P(1−maxPct), P(1+maxPct)]`; and for `P ≤ 0` the
candidate is returned unchanged. -/
theorem capInflowChange_bounds (P c maxPct : ℝ) :
    (0 < P → 0 ≤ maxPct →
      P * (1 - maxPct) ≤ capInflowChange P c maxPct ∧
        capInflowChange P c maxPct ≤ P * (1 + maxPct)) ∧
    (P ≤ 0 → capInflowChange P c maxPct = c) := by
  constructor
  · intro hP hm
    rw [capInflowChange, if_neg (not_le.mpr hP)]
    have hdu : P * (1 - maxPct) ≤ P * (1 + maxPct) := by nlinarith
    exact ⟨le_min hdu (le_max_left _ _), min_le_left _ _⟩
  · intro hP
    rw [capInflowChange, if_pos hP]

/-- Witness for C9 at `P = 10`, `c = 100`, `maxPct = 0.12` (clamped case)
and `P = -1`, `c = 7` (pass-through case). -/
theorem capInflowChange_bounds_witness :
    ((0:ℝ) < 10 ∧ (0:ℝ) ≤ 0.12 ∧
      10 * (1 - 0.12) ≤ capInflowChange 10 100 0.12 ∧
        capInflowChange 10 100 0.12 ≤ 10 * (1 + 0.12)) ∧
    ((-1:ℝ) ≤ 0 ∧ capInflowChange (-1) 7 0.12 = 7) :=
  ⟨⟨by norm_num, by norm_num,
      ((capInflowChange_bounds 10 100 0.12).1 (by norm_num) (by norm_num)).1,
      ((capInflowChange_bounds 10 100 0.12).1 (by norm_num) (by norm_num)).2⟩,
    ⟨by norm_num, (capInflowChange_bounds (-1) 7 0.12).2 (by norm_num)⟩⟩
-- ===== lemmas about the grid search =====

lemma sseFor_of_all_none (inflow : List ℝ) (O0 : ℝ) (obs : List (Option ℝ))
    (hobs : ∀ o ∈ obs, o = none) (params : MuskingumParams) :
    sseFor inflow O0 obs params = 0 := by
  have hget : ∀ t : ℕ, obs[t]?.getD none = none := by
    intro t
    rcases h : obs[t]? with _ | o
    · simp [h]
    · have ho := hobs o (List.getElem?_mem h)
      simp [h, ho]
  have hzero : ∀ (Ohat : List ℝ) (L : List ℕ) (s : ℝ),
      L.foldl (sseAdd obs Ohat) s = s := by
    intro Ohat L
    induction L with
    | nil => intro s; rfl
    | cons a L ih =>
      intro s
      rw [List.foldl_cons]
      have hs : sseAdd obs Ohat s a = s := by
        simp [sseAdd, hget a]
      rw [hs]
      exact ih s
  simp only [sseFor]
  exact hzero _ _ 0

lemma gridCand_sse (inflow : List ℝ) (O0 : ℝ) (obs : List (Option ℝ)) (dt : ℝ)
    (Klo Khi Xlo Xhi : ℝ) (KN XN : ℕ) (i j : ℕ) :
    (gridCand inflow O0 obs dt Klo Khi Xlo Xhi KN XN i j).sse =
      sseFor inflow O0 obs (gridCand inflow O0 obs dt Klo Khi Xlo Xhi KN XN i j).params :=
  rfl

lemma gridCands_sse_zero (inflow : List ℝ) (O0 : ℝ) (obs : List (Option ℝ))
    (dt : ℝ) (Klo Khi Xlo Xhi : ℝ) (KN XN : ℕ)
    (hobs : ∀ o ∈ obs, o = none) :
    ∀ c ∈ gridCands inflow O0 obs dt Klo Khi Xlo Xhi KN XN, c.sse = 0 := by
  intro c hc
  simp only [gridCands, List.mem_flatMap, List.mem_map, List.mem_range] at hc
  obtain ⟨i, _, j, _, rfl⟩ := hc
  rw [gridCand_sse]
  exact sseFor_of_all_none inflow O0 obs hobs _

/-- First-encountered minimum wins: folding over candidates that all tie at
SSE 0 never replaces the current best (strict `<` comparison). -/
lemma foldl_bestStep_zero (b : Cand) (hb : b.sse = 0) :
    ∀ (L : List Cand), (∀ c ∈ L, c.sse = 0) → L.foldl bestStep (some b) = some b
  | [], _ => rfl
  | c :: L, h => by
    have hc : c.sse = 0 := h c (List.mem_cons_self c L)
    have hstep : bestStep (some b) c = some b := by
      simp only [bestStep, hc, hb]
      rw [if_neg (lt_irrefl (0:ℝ))]
    rw [List.foldl_cons, hstep]
    exact foldl_bestStep_zero b hb L (fun c hcm => h c (List.mem_cons_of_mem _ hcm))

lemma gridCands_head? (inflow : List ℝ) (O0 : ℝ) (obs : List (Option ℝ))
    (dt : ℝ) (Klo Khi Xlo Xhi : ℝ) (m p : ℕ) :
    (gridCands inflow O0 obs dt Klo Khi Xlo Xhi (m+1) (p+1)).head? =
      some (gridCand inflow O0 obs dt Klo Khi Xlo Xhi (m+1) (p+1) 0 0) := by
  rw [gridCands, List.range_succ_eq_map m, List.flatMap_cons]
  rw [List.range_succ_eq_map p, List.map_cons, List.cons_append, List.head?_cons]

/-- The cell at grid indices `(0,0)` carries exactly
`muskingumCoeffs (Klo·3600) Xlo dt`. -/
lemma gridCand_zero_params (inflow : List ℝ) (O0 : ℝ) (obs : List (Option ℝ))
    (dt : ℝ) (Klo Khi Xlo Xhi : ℝ) (KN XN : ℕ) :
    (gridCand inflow O0 obs dt Klo Khi Xlo Xhi KN XN 0 0).params =
      muskingumCoeffs (Klo * 3600) Xlo dt := by
  simp [gridCand]

/-- Both stages keep the first coarse cell when every candidate ties at 0. -/
lemma twoStage_allZero (inflow : List ℝ) (O0 : ℝ) (obs : List (Option ℝ))
    (dt : ℝ) (Klo Khi Xlo Xhi : ℝ) (m p : ℕ)
    (hobs : ∀ o ∈ obs, o = none) (fKlo fKhi fXlo fXhi : ℝ) :
    (gridCands inflow O0 obs dt fKlo fKhi fXlo fXhi 9 9).foldl bestStep
      ((gridCands inflow O0 obs dt Klo Khi Xlo Xhi (m+1) (p+1)).foldl bestStep none) =
    some (gridCand inflow O0 obs dt Klo Khi Xlo Xhi (m+1) (p+1) 0 0) := by
  obtain ⟨rest, hrest⟩ := List.head?_eq_some_iff.mp
    (gridCands_head? inflow O0 obs dt Klo Khi Xlo Xhi m p)
  have hc00 : (gridCand inflow O0 obs dt Klo Khi Xlo Xhi (m+1) (p+1) 0 0).sse = 0 := by
    rw [gridCand_sse]
    exact sseFor_of_all_none inflow O0 obs hobs _
  have hrestz : ∀ c ∈ rest, c.sse = 0 := by
    intro c hcm
    exact gridCands_sse_zero inflow O0 obs dt Klo Khi Xlo Xhi (m+1) (p+1) hobs c
      (by rw [hrest]; exact List.mem_cons_of_mem _ hcm)
  have h1 : (gridCands inflow O0 obs dt Klo Khi Xlo Xhi (m+1) (p+1)).foldl bestStep none =
      some (gridCand inflow O0 obs dt Klo Khi Xlo Xhi (m+1) (p+1) 0 0) := by
    rw [hrest, List.foldl_cons]
    exact foldl_bestStep_zero _ hc00 rest hrestz
  rw [h1]
  exact foldl_bestStep_zero _ hc00 _
    (gridCands_sse_zero inflow O0 obs dt fKlo fKhi fXlo fXhi 9 9 hobs)

-- ===== C5 =====

/-- C5: with a non-empty inflow series and every downstream observation
missing, every candidate ties at SSE 0 and `estimateMuskingumParams`
returns the coefficients derived from the first-enumerated coarse cell
(`K = KminH` hours, `X = Xmin`, stability-corrected by `muskingumCoeffs`). -/
theorem estimateMuskingumParams_allMissing_firstCell (inflow : List ℝ)
    (obs : List (Option ℝ)) (dtSeconds : ℝ) (search : SearchConfig)
    (_hne : inflow ≠ []) (hobs : ∀ o ∈ obs, o = none) :
    (∀ params : MuskingumParams,
      sseFor inflow ((obs.findSome? id).getD (inflow.headD 0)) obs params = 0) ∧
    estimateMuskingumParams inflow obs dtSeconds search =
      muskingumCoeffs ((search.KminH.getD 0.25) * 3600) (search.Xmin.getD 0) dtSeconds := by
  refine ⟨fun params => sseFor_of_all_none _ _ _ hobs params, ?_⟩
  have hK : ∃ m, max 5 (search.KGrid.getD 15) = m + 1 :=
    ⟨max 5 (search.KGrid.getD 15) - 1,
      (Nat.succ_pred_eq_of_pos (lt_of_lt_of_le (by norm_num) (le_max_left _ _))).symm⟩
  have hX : ∃ p, max 5 (search.XGrid.getD 11) = p + 1 :=
    ⟨max 5 (search.XGrid.getD 11) - 1,
      (Nat.succ_pred_eq_of_pos (lt_of_lt_of_le (by norm_num) (le_max_left _ _))).symm⟩
  obtain ⟨m, hm⟩ := hK
  obtain ⟨p, hp⟩ := hX
  simp only [estimateMuskingumParams, hm, hp]
  rw [twoStage_allZero inflow _ obs dtSeconds _ _ _ _ m p hobs]
  rw [Option.getD_some, gridCand_zero_params]

/-- Witness for C5: a one-element inflow series and a fully missing
observation window, default search configuration. -/
theorem estimateMuskingumParams_allMissing_firstCell_witness :
    ([(1:ℝ)] ≠ []) ∧ (∀ o ∈ ([none] : List (Option ℝ)), o = none) ∧
    estimateMuskingumParams [(1:ℝ)] [none] 3600 emptySearch =
      muskingumCoeffs (0.25 * 3600) 0 3600 := by
  refine ⟨by simp, by simp, ?_⟩
  have h := (estimateMuskingumParams_allMissing_firstCell [(1:ℝ)] [none] 3600 emptySearch
    (by simp) (by simp)).2
  simpa [emptySearch] using h
-- ===== lemmas about fitRatingCurve =====

lemma rcCandStep_skip (pairs : List RCPair) (best : Option RCBest) (i : ℕ)
    (h : (rcRowsAt pairs i).length < 3 ∨ rcDenomAt pairs i = 0) :
    rcCandStep pairs best i = best := by
  rcases h with h | h
  · rw [rcCandStep, if_pos h]
  · rw [rcCandStep]
    by_cases h3 : (rcRowsAt pairs i).length < 3
    · rw [if_pos h3]
    · rw [if_neg h3, if_pos (by rw [h, abs_zero]; norm_num)]

lemma foldl_rcCandStep_none (pairs : List RCPair) :
    ∀ (L : List ℕ),
      (∀ i ∈ L, (rcRowsAt pairs i).length < 3 ∨ rcDenomAt pairs i = 0) →
      L.foldl (rcCandStep pairs) none = none
  | [], _ => rfl
  | i :: L, h => by
    rw [List.foldl_cons, rcCandStep_skip pairs none i (h i (List.mem_cons_self i L))]
    exact foldl_rcCandStep_none pairs L (fun j hj => h j (List.mem_cons_of_mem _ hj))

lemma foldl_min_le : ∀ (xs : List ℝ) (x : ℝ),
    xs.foldl min x ≤ x ∧ ∀ z ∈ xs, xs.foldl min x ≤ z
  | [], x => ⟨le_refl x, by simp⟩
  | y :: ys, x => by
    rw [List.foldl_cons]
    have ih := foldl_min_le ys (min x y)
    refine ⟨le_trans ih.1 (min_le_left x y), ?_⟩
    intro z hz
    rcases List.mem_cons.mp hz with rfl | hz
    · exact le_trans ih.1 (min_le_right x z)
    · exact ih.2 z hz

lemma foldl_min_mem : ∀ (xs : List ℝ) (x : ℝ),
    xs.foldl min x = x ∨ xs.foldl min x ∈ xs
  | [], x => Or.inl rfl
  | y :: ys, x => by
    rw [List.foldl_cons]
    rcases foldl_min_mem ys (min x y) with h | h
    · rcases min_choice x y with h2 | h2
      · exact Or.inl (by rw [h, h2])
      · exact Or.inr (by rw [h, h2]; exact List.mem_cons_self y ys)
    · exact Or.inr (List.mem_cons_of_mem _ h)

lemma foldl_min_eq : ∀ (xs : List ℝ) (x : ℝ), (∀ z ∈ xs, x ≤ z) →
    xs.foldl min x = x
  | [], _, _ => rfl
  | y :: ys, x, h => by
    rw [List.foldl_cons, min_eq_left (h y (List.mem_cons_self y ys))]
    exact foldl_min_eq ys x (fun z hz => h z (List.mem_cons_of_mem _ hz))

lemma jsMinD_spec (l : List ℝ) (hne : l ≠ []) :
    jsMinD l ∈ l ∧ ∀ z ∈ l, jsMinD l ≤ z := by
  cases l with
  | nil => exact absurd rfl hne
  | cons x xs =>
    constructor
    · rcases foldl_min_mem xs x with h | h
      · rw [jsMinD, h]; exact List.mem_cons_self x xs
      · rw [jsMinD]; exact List.mem_cons_of_mem _ h
    · intro z hz
      rcases List.mem_cons.mp hz with rfl | hz
      · exact (foldl_min_le xs z).1
      · exact (foldl_min_le xs x).2 z hz

lemma jsMinD_sorted_head (l : List ℝ) (hs : l.Sorted (· ≤ ·)) (hne : l ≠ []) :
    l.headD 0 = jsMinD l := by
  cases l with
  | nil => exact absurd rfl hne
  | cons x xs =>
    have hx : ∀ z ∈ xs, x ≤ z := (List.sorted_cons.mp hs).1
    show x = xs.foldl min x
    exact (foldl_min_eq xs x hx).symm

-- ===== C6 =====

/-- C6: whenever at least one finite stage exists and either fewer than 3
finite stages, or fewer than 3 finite discharges, or no `h0` candidate
admits ≥ 3 usable rows with a nonzero regression denominator,
`fitRatingCurve` returns `{a: 1, b: 1, h0 = minimum finite stage}` (and
returns normally — there is no error path). -/
theorem fitRatingCurve_fallback (pairs : List RCPair)
    (hne : pairs.filterMap (·.h) ≠ [])
    (hcond : (rcHs pairs).length < 3 ∨ (rcQs pairs).length < 3 ∨
      ∀ i < 41, (rcRowsAt pairs i).length < 3 ∨ rcDenomAt pairs i = 0) :
    fitRatingCurve pairs = ⟨1, 1, jsMinD (rcHs pairs)⟩ ∧
    jsMinD (rcHs pairs) ∈ pairs.filterMap (·.h) ∧
    ∀ x ∈ pairs.filterMap (·.h), jsMinD (rcHs pairs) ≤ x := by
  have hperm : List.Perm (rcHs pairs) (pairs.filterMap (·.h)) := by
    unfold rcHs
    exact List.perm_insertionSort _ _
  have hHsne : rcHs pairs ≠ [] := by
    intro h
    apply hne
    have h2 : List.Perm ([] : List ℝ) (pairs.filterMap (·.h)) := h ▸ hperm
    exact List.Perm.eq_nil h2.symm
  have hmin := jsMinD_spec (rcHs pairs) hHsne
  have hmem : jsMinD (rcHs pairs) ∈ pairs.filterMap (·.h) := hperm.mem_iff.mp hmin.1
  have hle : ∀ x ∈ pairs.filterMap (·.h), jsMinD (rcHs pairs) ≤ x := fun x hx =>
    hmin.2 x (hperm.mem_iff.mpr hx)
  refine ⟨?_, hmem, hle⟩
  by_cases hA : (rcHs pairs).length < 3 ∨ (rcQs pairs).length < 3
  · rw [fitRatingCurve, if_pos hA]
  · have hB : ∀ i < 41, (rcRowsAt pairs i).length < 3 ∨ rcDenomAt pairs i = 0 := by
      rcases hcond with h | h | h
      · exact absurd (Or.inl h) hA
      · exact absurd (Or.inr h) hA
      · exact h
    have hfold : (List.range 41).foldl (rcCandStep pairs) none = none :=
      foldl_rcCandStep_none pairs (List.range 41)
        (fun i hi => hB i (List.mem_range.mp hi))
    rw [fitRatingCurve, if_neg hA, hfold]
    rw [jsMinD_sorted_head (rcHs pairs) (List.sorted_insertionSort _ _) hHsne]

/-- Witness for C6: two pairs give only 2 finite stages (< 3), triggering
the early fallback. -/
theorem fitRatingCurve_fallback_witness :
    (([RCPair.mk (some 2) (some 5), RCPair.mk (some 1) (some 4)].filterMap (·.h)) ≠ []) ∧
    (rcHs [RCPair.mk (some 2) (some 5), RCPair.mk (some 1) (some 4)]).length < 3 ∧
    fitRatingCurve [RCPair.mk (some 2) (some 5), RCPair.mk (some 1) (some 4)] =
      ⟨1, 1, jsMinD (rcHs [RCPair.mk (some 2) (some 5), RCPair.mk (some 1) (some 4)])⟩ := by
  have hlen : (rcHs [RCPair.mk (some 2) (some 5), RCPair.mk (some 1) (some 4)]).length < 3 := by
    have hp := (List.perm_insertionSort (α := ℝ) (· ≤ ·)
      ([RCPair.mk (some 2) (some 5), RCPair.mk (some 1) (some 4)].filterMap (·.h))).length_eq
    rw [rcHs, hp]
    simp
  exact ⟨by simp, hlen,
    (fitRatingCurve_fallback _ (by simp) (Or.inl hlen)).1⟩
-- ===== C4 =====

lemma forecastLoop_length (dt : ℝ) (mk : MuskingumParams) (rc : RatingCurveParams)
    (method : InflowMethod) (alpha maxPct refQ gamma lam lastT : ℝ) :
    ∀ (rem step : ℕ) (histI : List ℝ) (prevO prevH : ℝ),
      (forecastLoop dt mk rc method alpha maxPct refQ gamma lam lastT
        rem step histI prevO prevH).length = rem := by
  intro rem
  induction rem with
  | zero => intro step histI prevO prevH; rfl
  | succ n ih =>
    intro step histI prevO prevH
    simp only [forecastLoop, List.length_cons]
    rw [ih]

/-- C4 (amended): `dynamicRouteAndForecastN` performs no input validation
and has no error path: for every window — including empty or too-short
ones — and every options record it returns normally, with exactly `nSteps`
forecast records. -/
theorem dynamicRouteAndForecastN_always_forecasts (input : WindowData)
    (opts : ForecastOptions) :
    (dynamicRouteAndForecastN input opts).forecasts.length = opts.nSteps := by
  simp only [dynamicRouteAndForecastN]
  exact forecastLoop_length _ _ _ _ _ _ _ _ _ _ _ _ _ _ _

/-- Counterexample to C4 as stated: a one-sample window — too short for the
`ar1` inflow method, which needs at least two points to fit φ — still
produces forecast records (here 2 of them) instead of surfacing an
InvalidInput error; the function has no error path at all. -/
theorem dynamicRouteAndForecastN_no_invalid_input_cex :
    (dynamicRouteAndForecastN
      ⟨[⟨0, none, some 5⟩], [⟨0, none, some 5⟩], 3600⟩
      ⟨2, some .ar1, none, none, none, none, none⟩).forecasts ≠ [] := by
  have h : (dynamicRouteAndForecastN
      ⟨[⟨0, none, some 5⟩], [⟨0, none, some 5⟩], 3600⟩
      ⟨2, some .ar1, none, none, none, none, none⟩).forecasts.length = 2 := by
    simp only [dynamicRouteAndForecastN]
    exact forecastLoop_length _ _ _ _ _ _ _ _ _ _ _ _ _ _ _
  intro hnil
  rw [hnil] at h
  simp at h

-- ===== list helpers for the steady-state claim =====

lemma getD_of_all_eq (v : ℝ) (l : List ℝ) (hall : ∀ x ∈ l, x = v) (i : ℕ)
    (hi : i < l.length) : l.getD i 0 = v := by
  rw [List.getD_eq_getElem l 0 hi]
  exact hall _ (List.getElem_mem hi)

lemma getLastD_of_all_eq (v : ℝ) : ∀ (l : List ℝ) (d : ℝ),
    (∀ x ∈ l, x = v) → l ≠ [] → l.getLastD d = v
  | [], _, _, h => absurd rfl h
  | a :: l, d, hall, _ => by
    rw [List.getLastD_cons]
    cases l with
    | nil => exact hall a (List.mem_cons_self a [])
    | cons b t =>
      exact getLastD_of_all_eq v (b :: t) a
        (fun x hx => hall x (List.mem_cons_of_mem _ hx)) (by simp)

lemma findSome?_of_all_eq (v : ℝ) : ∀ (l : List (Option ℝ)),
    (∀ x ∈ l, x = some v) → l ≠ [] → l.findSome? id = some v
  | [], _, h => absurd rfl h
  | a :: l, hall, _ => by
    have ha : a = some v := hall a (List.mem_cons_self a l)
    rw [List.findSome?_cons, ha]
    rfl

-- ===== the estimator always returns muskingumCoeffs output =====

lemma foldl_bestStep_params (P : MuskingumParams → Prop) :
    ∀ (L : List Cand) (b : Option Cand),
      (∀ c, b = some c → P c.params) → (∀ c ∈ L, P c.params) →
      ∀ c, L.foldl bestStep b = some c → P c.params := by
  intro L
  induction L with
  | nil => intro b hb _ c hc; exact hb c hc
  | cons a L ih =>
    intro b hb hL c hc
    rw [List.foldl_cons] at hc
    refine ih (bestStep b a) ?_ (fun c' hcm => hL c' (List.mem_cons_of_mem _ hcm)) c hc
    intro c' hc'
    have hPa : P a.params := hL a (List.mem_cons_self a L)
    cases b with
    | none =>
      simp only [bestStep] at hc'
      obtain rfl := Option.some.inj hc'
      exact hPa
    | some b0 =>
      simp only [bestStep] at hc'
      by_cases hlt : a.sse < b0.sse
      · rw [if_pos hlt] at hc'
        obtain rfl := Option.some.inj hc'
        exact hPa
      · rw [if_neg hlt] at hc'
        obtain rfl := Option.some.inj hc'
        exact hb b0 rfl

lemma gridCands_params (inflow : List ℝ) (O0 : ℝ) (obs : List (Option ℝ))
    (dt : ℝ) (Klo Khi Xlo Xhi : ℝ) (KN XN : ℕ) :
    ∀ c ∈ gridCands inflow O0 obs dt Klo Khi Xlo Xhi KN XN,
      ∃ k x, c.params = muskingumCoeffs k x dt := by
  intro c hc
  simp only [gridCands, List.mem_flatMap, List.mem_map, List.mem_range] at hc
  obtain ⟨i, _, j, _, rfl⟩ := hc
  exact ⟨_, _, rfl⟩

lemma getD_foldl_bestStep_params (dt : ℝ) (L1 L2 : List Cand) (d : Cand)
    (hd : ∃ k x, d.params = muskingumCoeffs k x dt)
    (h1 : ∀ c ∈ L1, ∃ k x, c.params = muskingumCoeffs k x dt)
    (h2 : ∀ c ∈ L2, ∃ k x, c.params = muskingumCoeffs k x dt) :
    ∃ k x, ((L2.foldl bestStep (L1.foldl bestStep none)).getD d).params =
      muskingumCoeffs k x dt := by
  have hb1 := foldl_bestStep_params (fun p => ∃ k x, p = muskingumCoeffs k x dt)
    L1 none (fun c hc => by cases hc) h1
  have hb2 := foldl_bestStep_params (fun p => ∃ k x, p = muskingumCoeffs k x dt)
    L2 (L1.foldl bestStep none) hb1 h2
  rcases hx : L2.foldl bestStep (L1.foldl bestStep none) with _ | c
  · rw [Option.getD_none]
    exact hd
  · rw [Option.getD_some]
    exact hb2 c hx

/-- Whatever the window, the estimator's output is some `muskingumCoeffs`
output for the window's `Δt` (so it inherits all coefficient invariants). -/
lemma estimate_isCoeffs (inflow : List ℝ) (obs : List (Option ℝ)) (dt : ℝ)
    (cfg : SearchConfig) :
    ∃ k x, estimateMuskingumParams inflow obs dt cfg = muskingumCoeffs k x dt := by
  simp only [estimateMuskingumParams]
  exact getD_foldl_bestStep_params dt _ _ _ ⟨0, 0, rfl⟩
    (gridCands_params _ _ _ _ _ _ _ _ _ _) (gridCands_params _ _ _ _ _ _ _ _ _ _)

lemma windowMk_sum (input : WindowData) (hdt : 0 < input.dtSeconds) :
    (windowMk input).C0 + (windowMk input).C1 + (windowMk input).C2 = 1 := by
  obtain ⟨k, x, hkx⟩ := estimate_isCoeffs (windowI input) (windowOobs input)
    input.dtSeconds emptySearch
  simp only [windowMk]
  rw [hkx]
  exact coeffs_sum_eq_one k x _ hdt

-- ===== constant-inflow routing is a fixed point =====

lemma muskingumStep_const (p : MuskingumParams) (hsum : p.C0 + p.C1 + p.C2 = 1) :
    muskingumStep 100 100 100 p = 100 := by
  rw [muskingumStep]
  have h : p.C0 * 100 + p.C1 * 100 + p.C2 * 100 = 100 := by
    rw [← add_mul, ← add_mul, hsum, one_mul]
  rw [h]
  exact max_eq_right (by norm_num)

lemma routeGo_const (p : MuskingumParams) (hsum : p.C0 + p.C1 + p.C2 = 1) :
    ∀ (l : List ℝ), (∀ x ∈ l, x = (100:ℝ)) →
      ∀ y ∈ muskingumRouteGo p l 100 100, y = 100 := by
  intro l
  induction l with
  | nil => intro _ y hy; simp [muskingumRouteGo] at hy
  | cons a t ih =>
    intro hall y hy
    have ha : a = 100 := hall a (List.mem_cons_self a t)
    subst ha
    have hOt : muskingumStep 100 100 100 p = 100 := muskingumStep_const p hsum
    simp only [muskingumRouteGo, hOt] at hy
    rcases List.mem_cons.mp hy with rfl | hy2
    · rfl
    · exact ih (fun x hx => hall x (List.mem_cons_of_mem _ hx)) y hy2

lemma routeSeries_const (p : MuskingumParams) (hsum : p.C0 + p.C1 + p.C2 = 1)
    (l : List ℝ) (hall : ∀ x ∈ l, x = (100:ℝ)) :
    ∀ y ∈ muskingumRouteSeries l 100 p, y = 100 := by
  cases l with
  | nil => intro y hy; simp [muskingumRouteSeries] at hy
  | cons a t =>
    have ha : a = 100 := hall a (List.mem_cons_self a t)
    subst ha
    intro y hy
    simp only [muskingumRouteSeries] at hy
    exact routeGo_const p hsum (100 :: t) hall y hy

-- ===== window facts under a constant-100 window =====

lemma jsSliceLast_subset (l : List Sample) (n : ℕ) : jsSliceLast l n ⊆ l := by
  rw [jsSliceLast]
  split
  · exact fun x hx => hx
  · exact List.drop_subset _ _

lemma jsSliceLast_length (l : List Sample) (n : ℕ) (h0 : n ≠ 0)
    (hn : n ≤ l.length) : (jsSliceLast l n).length = n := by
  rw [jsSliceLast, if_neg h0, List.length_drop]
  omega

lemma windowI_all (input : WindowData)
    (hup : ∀ s ∈ input.upstream, s.q = some (100:ℝ)) :
    ∀ x ∈ windowI input, x = 100 := by
  intro x hx
  simp only [windowI, List.mem_map] at hx
  obtain ⟨s, hs, rfl⟩ := hx
  rw [hup s (jsSliceLast_subset _ _ hs)]
  rfl

lemma windowOobs_all (input : WindowData)
    (hdown : ∀ s ∈ input.downstream, s.q = some (100:ℝ)) :
    ∀ o ∈ windowOobs input, o = some 100 := by
  intro o ho
  simp only [windowOobs, List.mem_map] at ho
  obtain ⟨s, hs, rfl⟩ := ho
  exact hdown s (jsSliceLast_subset _ _ hs)

lemma windowI_length (input : WindowData) (hn : 1 ≤ windowN input) :
    (windowI input).length = windowN input := by
  rw [windowI, List.length_map]
  exact jsSliceLast_length _ _ (by omega) (min_le_left _ _)

lemma windowOobs_length (input : WindowData) (hn : 1 ≤ windowN input) :
    (windowOobs input).length = windowN input := by
  rw [windowOobs, List.length_map]
  exact jsSliceLast_length _ _ (by omega) (min_le_right _ _)

lemma windowI_ne_nil (input : WindowData) (hn : 1 ≤ windowN input) :
    windowI input ≠ [] := by
  have hI := windowI_length input hn
  intro h
  rw [h] at hI
  simp at hI
  omega

lemma windowO0_const (input : WindowData) (hn : 1 ≤ windowN input)
    (hdown : ∀ s ∈ input.downstream, s.q = some (100:ℝ)) :
    windowO0 input = 100 := by
  have hOlen := windowOobs_length input hn
  have hne : windowOobs input ≠ [] := by
    intro h
    rw [h] at hOlen
    simp at hOlen
    omega
  rw [windowO0, findSome?_of_all_eq 100 _ (windowOobs_all input hdown) hne,
    Option.getD_some]

lemma windowRouted_all (input : WindowData) (hdt : 0 < input.dtSeconds)
    (hn : 1 ≤ windowN input)
    (hup : ∀ s ∈ input.upstream, s.q = some (100:ℝ))
    (hdown : ∀ s ∈ input.downstream, s.q = some (100:ℝ)) :
    ∀ y ∈ windowRouted input, y = 100 := by
  rw [windowRouted, windowO0_const input hn hdown]
  exact routeSeries_const (windowMk input) (windowMk_sum input hdt)
    (windowI input) (windowI_all input hup)

lemma windowRouted_ne_nil (input : WindowData) (hn : 1 ≤ windowN input) :
    windowRouted input ≠ [] := by
  rw [windowRouted]
  rcases hI : windowI input with _ | ⟨a, t⟩
  · exact absurd hI (windowI_ne_nil input hn)
  · simp [muskingumRouteSeries, muskingumRouteGo]

lemma windowPrevO_const (input : WindowData) (hdt : 0 < input.dtSeconds)
    (hn : 1 ≤ windowN input)
    (hup : ∀ s ∈ input.upstream, s.q = some (100:ℝ))
    (hdown : ∀ s ∈ input.downstream, s.q = some (100:ℝ)) :
    (windowRouted input).getLastD 0 = 100 :=
  getLastD_of_all_eq 100 _ 0 (windowRouted_all input hdt hn hup hdown)
    (windowRouted_ne_nil input hn)

-- ===== the forecast loop under constant-100 state =====

lemma forecastLoop_const (mk : MuskingumParams) (rc : RatingCurveParams)
    (alpha refQ gamma lam lastT : ℝ) :
    ∀ (rem step : ℕ) (histI : List ℝ) (prevH : ℝ),
      histI ≠ [] → (∀ x ∈ histI, x = (100:ℝ)) →
      ∀ f ∈ forecastLoop 3600 mk rc .persistence alpha 0.12 refQ gamma lam lastT
        rem step histI 100 prevH, f.q_m3s = 100 := by
  intro rem
  induction rem with
  | zero => intro step histI prevH _ _ f hf; simp [forecastLoop] at hf
  | succ n ih =>
    intro step histI prevH hne hall f hf
    have hlast : histI.getLastD 0 = 100 := getLastD_of_all_eq 100 histI 0 hall hne
    have hItidx : histI.getD (histI.length - 1) 0 = 100 :=
      getD_of_all_eq 100 histI hall _ (Nat.sub_lt (List.length_pos.mpr hne) one_pos)
    have hcand : forecastInflowNext histI .persistence alpha = 100 := by
      simp only [forecastInflowNext, hItidx]
      exact max_eq_right (by norm_num)
    have hIt : capInflowChange (histI.getLastD 0)
        (forecastInflowNext histI .persistence alpha) 0.12 = 100 := by
      rw [hlast, hcand, capInflowChange, if_neg (by norm_num : ¬(100:ℝ) ≤ 0)]
      rw [max_eq_right (by norm_num : (100:ℝ) * (1 - 0.12) ≤ 100)]
      exact min_eq_right (by norm_num : (100:ℝ) ≤ 100 * (1 + 0.12))
    have hall2 : ∀ x ∈ histI ++ [(100:ℝ)], x = 100 := by
      intro x hx
      rcases List.mem_append.mp hx with hx | hx
      · exact hall x hx
      · simpa using hx
    have hne2 : histI ++ [(100:ℝ)] ≠ [] := by simp
    have hItm1 : (histI ++ [(100:ℝ)]).getD ((histI ++ [(100:ℝ)]).length - 2) 0 = 100 :=
      getD_of_all_eq 100 _ hall2 _ (Nat.sub_lt (by simp) (by norm_num))
    have hOt : muskingumStep 100 100 100
        (muskingumCoeffs (scaleKByFlow mk.K 100 refQ gamma) mk.X 3600) = 100 :=
      muskingumStep_const _ (coeffs_sum_eq_one _ _ _ (by norm_num))
    simp only [forecastLoop] at hf
    rw [hIt] at hf
    rw [hItm1] at hf
    rw [hOt] at hf
    rcases List.mem_cons.mp hf with rfl | hf2
    · rfl
    · exact ih (step + 1) (histI ++ [100]) _ hne2 hall2 f hf2

-- ===== C3 =====

/-- C3: on a window whose upstream and downstream discharge series are
constantly 100 (window length ≥ 2, Δt = 3600 s), the routed historical
series is constantly 100 and, with the persistence inflow method, every
forecast discharge `q_m3s` equals 100, for every `nSteps ≥ 1` and every
stage-relaxation λ (real arithmetic). -/
theorem dynamicRouteAndForecastN_steady (input : WindowData) (N : ℕ) (lam : ℝ)
    (hdt : input.dtSeconds = 3600)
    (hup : ∀ s ∈ input.upstream, s.q = some (100:ℝ))
    (hdown : ∀ s ∈ input.downstream, s.q = some (100:ℝ))
    (hn : 2 ≤ windowN input) (_hN : 1 ≤ N) :
    (∀ y ∈ (dynamicRouteAndForecastN input
        ⟨N, some .persistence, none, none, none, some lam, none⟩).routedQ, y = 100) ∧
    (∀ f ∈ (dynamicRouteAndForecastN input
        ⟨N, some .persistence, none, none, none, some lam, none⟩).forecasts,
      f.q_m3s = 100) := by
  have hdt' : 0 < input.dtSeconds := by rw [hdt]; norm_num
  have hn1 : 1 ≤ windowN input := le_trans (by norm_num) hn
  constructor
  · intro y hy
    simp only [dynamicRouteAndForecastN] at hy
    exact windowRouted_all input hdt' hn1 hup hdown y hy
  · intro f hf
    simp only [dynamicRouteAndForecastN, Option.getD_some, Option.getD_none] at hf
    rw [hdt, windowPrevO_const input hdt' hn1 hup hdown] at hf
    exact forecastLoop_const (windowMk input) _ 0.35 300 0.3 lam _ N 1
      (windowI input) _ (windowI_ne_nil input hn1) (windowI_all input hup) f hf

/-- Witness for C3: a 2-sample constant-100 window, `nSteps = 1`,
`λ = 0.5`. -/
theorem dynamicRouteAndForecastN_steady_witness :
    (2 ≤ windowN ⟨[⟨0, none, some 100⟩, ⟨1, none, some 100⟩],
        [⟨0, none, some 100⟩, ⟨1, none, some 100⟩], 3600⟩) ∧
    (∀ f ∈ (dynamicRouteAndForecastN
        ⟨[⟨0, none, some 100⟩, ⟨1, none, some 100⟩],
         [⟨0, none, some 100⟩, ⟨1, none, some 100⟩], 3600⟩
        ⟨1, some .persistence, none, none, none, some 0.5, none⟩).forecasts,
      f.q_m3s = 100) := by
  have hn : 2 ≤ windowN ⟨[⟨0, none, some 100⟩, ⟨1, none, some 100⟩],
      [⟨0, none, some 100⟩, ⟨1, none, some 100⟩], 3600⟩ := by
    norm_num [windowN]
  refine ⟨hn, (dynamicRouteAndForecastN_steady _ 1 0.5 rfl ?_ ?_ hn (le_refl 1)).2⟩
  · simp
  · simp

end Hydro
